import Mathlib

/-!
# Verification of the annotation-app core (src/claude4.0sonnet_v03.py)

A shallow embedding of the citation-matching / highlighting engine, the
corpus model and the serialization adapters of the Streamlit annotation
tool, together with theorems settling the frozen claims about them.

Strings are modelled as `List Char` where Python string algorithms
(`in`, `replace`, `lower`, `upper`, sorting by length) matter, and as
Lean `String` where the code treats them as opaque cell values.
Recursions that are not structural use an explicit fuel argument that is
always instantiated large enough (the source recursions terminate on
length measures); this keeps every definition kernel-reducible.
-/

/-- Python `c in t` on strings: `c` occurs as a contiguous substring of `t`. -/
def pyIn (c t : List Char) : Bool :=
  c.isPrefixOf t ||
    match t with
    | [] => false
    | _ :: rest => pyIn c rest

/-- Fueled worker for Python `str.replace` with a non-empty pattern:
replaces the leftmost occurrence and continues after the inserted
replacement, i.e. all non-overlapping occurrences, left to right.
With `fuel ≥ t.length` the fuel never runs out. -/
def pyReplaceGo : Nat → List Char → List Char → List Char → List Char
  | 0, t, _, _ => t
  | fuel + 1, t, c, r =>
    match t with
    | [] => []
    | ch :: rest =>
      if c.isPrefixOf (ch :: rest) then
        r ++ pyReplaceGo fuel ((ch :: rest).drop c.length) c r
      else
        ch :: pyReplaceGo fuel rest c r

/-- Python `t.replace(c, r)` (all occurrences).  For the empty pattern
Python interleaves `r` between all characters (`"ab".replace("", "x") =
"xaxbx"`); the app always guards `replace` behind a non-emptiness check,
but the semantics is modelled faithfully anyway. -/
def pyReplace (t c r : List Char) : List Char :=
  if c = [] then r ++ t.foldr (fun ch acc => ch :: (r ++ acc)) []
  else pyReplaceGo t.length t c r

/-- Fueled worker for Python `t.count(c)` with a non-empty pattern:
the number of non-overlapping occurrences, counted greedily left to
right (the same scan as `pyReplaceGo`). -/
def countOccsGo : Nat → List Char → List Char → Nat
  | 0, _, _ => 0
  | fuel + 1, t, c =>
    match t with
    | [] => 0
    | ch :: rest =>
      if c.isPrefixOf (ch :: rest) then
        countOccsGo fuel ((ch :: rest).drop c.length) c + 1
      else
        countOccsGo fuel rest c

/-- Python `t.count(c)`: greedy non-overlapping occurrence count
(`len(t)+1` for the empty pattern, as in Python). -/
def countOccs (t c : List Char) : Nat :=
  if c = [] then t.length + 1 else countOccsGo t.length t c

/-- Python `str.lower`, per character, restricted to the character
repertoire this development exercises: ASCII letters and the German
letters ä/ö/ü/Ä/Ö/Ü/ß of the app's data.  Characters outside this
repertoire are left unchanged, which is faithful for caseless
characters (digits, punctuation, whitespace).  The result is a list
because Python's full case mapping may change the length (not for
`lower` on these characters, but the type mirrors `pyUpperChar`). -/
def pyLowerChar (ch : Char) : List Char :=
  if 'A' ≤ ch && ch ≤ 'Z' then [Char.ofNat (ch.toNat + 32)]
  else if ch = 'Ä' then ['ä']
  else if ch = 'Ö' then ['ö']
  else if ch = 'Ü' then ['ü']
  else [ch]

/-- Python `str.upper`, per character, on the same repertoire as
`pyLowerChar`.  Note `'ß'.upper() = "SS"` in Python (Unicode full case
mapping), which is why the result is a list. -/
def pyUpperChar (ch : Char) : List Char :=
  if 'a' ≤ ch && ch ≤ 'z' then [Char.ofNat (ch.toNat - 32)]
  else if ch = 'ä' then ['Ä']
  else if ch = 'ö' then ['Ö']
  else if ch = 'ü' then ['Ü']
  else if ch = 'ß' then ['S', 'S']
  else [ch]

/-- Python `s.lower()` over the modelled repertoire. -/
def pyLower (s : List Char) : List Char :=
  s.flatMap pyLowerChar

/-- Python `s.upper()` over the modelled repertoire. -/
def pyUpper (s : List Char) : List Char :=
  s.flatMap pyUpperChar

/-- `check_citation_in_text(citation, text)` (src lines 94-98): `False`
if either string is empty, else case-insensitive substring containment. -/
def check_citation_in_text (citation text : List Char) : Bool :=
  if citation.isEmpty || text.isEmpty then false
  else pyIn (pyLower citation) (pyLower text)

/-- Insert into a length-descending list, before the first strictly
shorter element.  Folded from the right this reproduces Python's
`sorted(citations, key=len, reverse=True)` including its stability:
among equal lengths the original order is preserved. -/
def insertLenDesc (x : List Char) : List (List Char) → List (List Char)
  | [] => [x]
  | y :: ys => if y.length ≤ x.length then x :: y :: ys else y :: insertLenDesc x ys

/-- Python `sorted(citations, key=len, reverse=True)`. -/
def pySortByLenDesc (l : List (List Char)) : List (List Char) :=
  l.foldr insertLenDesc []

/-- The opening marker inserted by `highlight_citations` (v03). -/
def markOpen : List Char :=
  "<mark style=\"background-color: #b9f6ca; padding: 2px 4px; border-radius: 3px;\">".toList

/-- The closing marker inserted by `highlight_citations`. -/
def markClose : List Char :=
  "</mark>".toList

/-- One loop iteration of `highlight_citations`: Python
`if citation and citation in highlighted: highlighted = highlighted.replace(citation, f'<mark ...>{citation}</mark>')`. -/
def highlightStep (highlighted citation : List Char) : List Char :=
  if !citation.isEmpty && pyIn citation highlighted then
    pyReplace highlighted citation (markOpen ++ citation ++ markClose)
  else highlighted

/-- `highlight_citations(text, citations)` (src lines 196-206): sort the
citations by length, longest first, then sequentially `replace` each one
that still occurs in the partially marked text. -/
def highlight_citations (text : List Char) (citations : List (List Char)) : List Char :=
  (pySortByLenDesc citations).foldl highlightStep text

/-! ## Counting lemmas for the highlighter -/

lemma countOccsGo_eq_zero_of_not_pyIn (fuel : Nat) (t c : List Char)
    (h : pyIn c t = false) : countOccsGo fuel t c = 0 := by
  induction fuel generalizing t with
  | zero => rfl
  | succ fuel ih =>
    cases t with
    | nil => rfl
    | cons x rest =>
      rw [pyIn, Bool.or_eq_false_iff] at h
      rw [countOccsGo, if_neg (by simp [h.1])]
      exact ih rest h.2

lemma count_pyReplaceGo (fuel : Nat) (ch : Char) (t c r : List Char)
    (hch : ch ∉ t) :
    (pyReplaceGo fuel t c r).count ch = countOccsGo fuel t c * r.count ch := by
  induction fuel generalizing t with
  | zero =>
    simpa [pyReplaceGo, countOccsGo] using List.count_eq_zero.2 hch
  | succ fuel ih =>
    cases t with
    | nil => simp [pyReplaceGo, countOccsGo]
    | cons x rest =>
      by_cases hp : c.isPrefixOf (x :: rest)
      · have hsub : ch ∉ (x :: rest).drop c.length :=
          fun hm => hch (List.drop_subset _ _ hm)
        rw [pyReplaceGo, if_pos hp, countOccsGo, if_pos hp,
          List.count_append, ih _ hsub, Nat.succ_mul]
        omega
      · have hxch : (x == ch) = false := by
          have : ch ≠ x := fun he => hch (he ▸ List.mem_cons_self x rest)
          simp [Ne.symm this]
        have hrest : ch ∉ rest := fun hm => hch (List.mem_cons_of_mem _ hm)
        rw [pyReplaceGo, if_neg hp, countOccsGo, if_neg hp,
          List.count_cons, ih _ hrest, hxch]
        simp

set_option maxRecDepth 100000 in
/-- C1 (amended): `highlight_citations` marks every greedy non-overlapping
occurrence of a single non-empty citation, not only the first one: for a
text and citation free of the marker character `<`, the output contains
exactly one `<mark …>`/`</mark>` pair — hence two `<` characters — per
occurrence. -/
theorem highlight_citations_marks_every_occurrence (t c : List Char)
    (hc : c ≠ []) (ht : '<' ∉ t) (hcc : '<' ∉ c) :
    (highlight_citations t [c]).count '<' = 2 * countOccs t c := by
  have hsort : pySortByLenDesc [c] = [c] := rfl
  have hemp : c.isEmpty = false := by
    cases c with
    | nil => exact absurd rfl hc
    | cons _ _ => rfl
  rw [highlight_citations, hsort, List.foldl_cons, List.foldl_nil, highlightStep]
  by_cases hin : pyIn c t
  · rw [if_pos (by simp [hemp, hin]), pyReplace, if_neg hc, count_pyReplaceGo _ _ _ _ _ ht,
      countOccs, if_neg hc]
    have hmo : markOpen.count '<' = 1 := by decide
    have hmc : markClose.count '<' = 1 := by decide
    have h2 : (markOpen ++ c ++ markClose).count '<' = 2 := by
      rw [List.count_append, List.count_append, List.count_eq_zero.2 hcc, hmo, hmc]
    rw [h2, Nat.mul_comm]
  · rw [if_neg (by simp [hemp]; simp at hin; exact hin), countOccs, if_neg hc,
      countOccsGo_eq_zero_of_not_pyIn _ _ _ (by simpa using hin),
      List.count_eq_zero.2 ht]

set_option maxRecDepth 400000 in
/-- C1 witness: the amended theorem at the claim's own example, with all
hypotheses discharged concretely (`"foo foo foo"` has three occurrences
of `"foo"`, so six `<` characters appear in the output). -/
theorem highlight_citations_marks_every_occurrence_wit :
    ("foo".toList ≠ [] ∧ '<' ∉ "foo foo foo".toList ∧ '<' ∉ "foo".toList) ∧
    (highlight_citations "foo foo foo".toList ["foo".toList]).count '<'
      = 2 * countOccs "foo foo foo".toList "foo".toList :=
  ⟨⟨by decide, by decide, by decide⟩,
   highlight_citations_marks_every_occurrence "foo foo foo".toList "foo".toList
     (by decide) (by decide) (by decide)⟩

set_option maxRecDepth 400000 in
/-- C1 counterexample: on passage `"foo foo foo"` with the single citation
`"foo"` the output of `highlight_citations` contains three marked spans
(three occurrences of the opening marker), not exactly one — the code
replaces every occurrence, not only the first. -/
theorem cex_highlight_citations_not_single_occurrence :
    countOccs (highlight_citations "foo foo foo".toList ["foo".toList]) markOpen = 3 ∧
    countOccs (highlight_citations "foo foo foo".toList ["foo".toList]) markOpen ≠ 1 := by
  constructor
  · decide
  · decide

set_option maxRecDepth 400000 in
/-- C2 counterexample: for text `"ergänzende Details"` and citations
`{"Details", "ergänzende Details"}` the output is *not* the single marked
span `<mark …>ergänzende Details</mark>` that the claim promises. -/
theorem cex_highlight_citations_rewraps_inner :
    highlight_citations "ergänzende Details".toList
        ["Details".toList, "ergänzende Details".toList]
      ≠ markOpen ++ "ergänzende Details".toList ++ markClose := by
  decide

set_option maxRecDepth 400000 in
/-- C2 (amended): the longer citation is processed first, but the shorter
citation `"Details"`, which after the first replacement occurs inside the
already-inserted marker, is wrapped again by the second `replace`: the
output contains nested markers
`<mark …>ergänzende <mark …>Details</mark></mark>`. -/
theorem highlight_citations_nested_markers :
    highlight_citations "ergänzende Details".toList
        ["Details".toList, "ergänzende Details".toList]
      = markOpen ++ "ergänzende ".toList ++ markOpen ++ "Details".toList
        ++ markClose ++ markClose := by
  decide

/-! ## Case-mapping lemmas for the citation matcher -/

/-- A character is case-stable if uppercasing then lowercasing it agrees
with lowercasing it, and lowercasing is idempotent on it.  All ASCII and
German umlaut letters are case-stable; `'ß'` is not (`'ß'.upper() = "SS"`). -/
def caseStable (ch : Char) : Bool :=
  ((pyUpperChar ch).flatMap pyLowerChar == pyLowerChar ch) &&
  ((pyLowerChar ch).flatMap pyLowerChar == pyLowerChar ch)

lemma pyLower_pyUpper_of_caseStable (c : List Char)
    (hc : ∀ ch ∈ c, caseStable ch = true) :
    pyLower (pyUpper c) = pyLower c := by
  induction c with
  | nil => rfl
  | cons x xs ih =>
    have hx := hc x (List.mem_cons_self x xs)
    rw [caseStable, Bool.and_eq_true, beq_iff_eq, beq_iff_eq] at hx
    have ih' := ih fun ch h => hc ch (List.mem_cons_of_mem _ h)
    simp only [pyUpper, pyLower, List.flatMap_cons, List.flatMap_append] at ih' ⊢
    rw [hx.1, ih']

lemma pyLower_pyLower_of_caseStable (t : List Char)
    (ht : ∀ ch ∈ t, caseStable ch = true) :
    pyLower (pyLower t) = pyLower t := by
  induction t with
  | nil => rfl
  | cons x xs ih =>
    have hx := ht x (List.mem_cons_self x xs)
    rw [caseStable, Bool.and_eq_true, beq_iff_eq, beq_iff_eq] at hx
    have ih' := ih fun ch h => ht ch (List.mem_cons_of_mem _ h)
    simp only [pyLower, List.flatMap_cons, List.flatMap_append] at ih' ⊢
    rw [hx.2, ih']

lemma pyLowerChar_ne_nil (ch : Char) : pyLowerChar ch ≠ [] := by
  rw [pyLowerChar]
  split
  · simp
  · split
    · simp
    · split
      · simp
      · split <;> simp

lemma pyUpperChar_ne_nil (ch : Char) : pyUpperChar ch ≠ [] := by
  rw [pyUpperChar]
  split
  · simp
  · split
    · simp
    · split
      · simp
      · split
        · simp
        · split <;> simp

lemma pyLower_eq_nil_iff (s : List Char) : pyLower s = [] ↔ s = [] := by
  cases s with
  | nil => simp [pyLower]
  | cons x xs =>
    simp only [pyLower, List.flatMap_cons, List.append_eq_nil]
    exact ⟨fun h => absurd h.1 (pyLowerChar_ne_nil x), fun h => nomatch h⟩

lemma pyUpper_eq_nil_iff (s : List Char) : pyUpper s = [] ↔ s = [] := by
  cases s with
  | nil => simp [pyUpper]
  | cons x xs =>
    simp only [pyUpper, List.flatMap_cons, List.append_eq_nil]
    exact ⟨fun h => absurd h.1 (pyUpperChar_ne_nil x), fun h => nomatch h⟩

lemma pyIn_nil_left (t : List Char) : pyIn [] t = true := by
  cases t <;> rfl

lemma pyIn_nil_right (x : List Char) : pyIn x [] = x.isEmpty := by
  cases x <;> rfl

/-- C5 (amended): `check_citation_in_text` is false as soon as either
string is empty and otherwise tests case-folded substring containment;
the spec's law `occurs(c, t) = occurs(c.upper(), t.lower())` holds for
strings made of case-stable characters (in particular all ASCII and
German umlaut text).  It does not hold universally: see the `'ß'`
counterexample. -/
theorem check_citation_in_text_spec (c t : List Char)
    (hc : ∀ ch ∈ c, caseStable ch = true) (ht : ∀ ch ∈ t, caseStable ch = true) :
    (check_citation_in_text c t
        = (!c.isEmpty && !t.isEmpty && pyIn (pyLower c) (pyLower t))) ∧
    check_citation_in_text [] t = false ∧
    check_citation_in_text c t = check_citation_in_text (pyUpper c) (pyLower t) := by
  refine ⟨?_, rfl, ?_⟩
  · cases c <;> cases t <;> simp [check_citation_in_text]
  · cases c with
    | nil => rfl
    | cons x xs =>
      cases t with
      | nil => simp [check_citation_in_text, pyLower]
      | cons y ys =>
        have h1 : (pyUpper (x :: xs)).isEmpty = false := by
          rw [← Bool.not_eq_true, List.isEmpty_eq_true, pyUpper_eq_nil_iff]
          simp
        have h2 : (pyLower (y :: ys)).isEmpty = false := by
          rw [← Bool.not_eq_true, List.isEmpty_eq_true, pyLower_eq_nil_iff]
          simp
        rw [check_citation_in_text, check_citation_in_text]
        simp only [List.isEmpty_cons, h1, h2, Bool.or_false, Bool.false_or,
          if_false, Bool.false_eq_true]
        rw [pyLower_pyUpper_of_caseStable _ hc, pyLower_pyLower_of_caseStable _ ht]

/-- C5 witness: the amended theorem instantiated at the case-stable pair
`c = "AbC"`, `t = "xabcx"`. -/
theorem check_citation_in_text_spec_wit :
    ((∀ ch ∈ "AbC".toList, caseStable ch = true) ∧
      (∀ ch ∈ "xabcx".toList, caseStable ch = true)) ∧
    check_citation_in_text "AbC".toList "xabcx".toList
      = check_citation_in_text (pyUpper "AbC".toList) (pyLower "xabcx".toList) :=
  ⟨⟨by decide, by decide⟩,
   (check_citation_in_text_spec "AbC".toList "xabcx".toList
      (by decide) (by decide)).2.2⟩

/-- C5 counterexample: Python maps `'ß'` to `"SS"` under `upper` and to
itself under `lower`, so `occurs("ß", "ß")` is true while
`occurs("ß".upper(), "ß".lower()) = occurs("SS", "ß")` is false — the
claimed law `occurs(c, t) = occurs(c.upper(), t.lower())` fails for
`c = t = "ß"`. -/
theorem cex_check_citation_sharp_s :
    check_citation_in_text "ß".toList "ß".toList = true ∧
    check_citation_in_text (pyUpper "ß".toList) (pyLower "ß".toList) = false := by
  constructor
  · decide
  · decide

/-- C10: highlighting matches case-sensitively while the "Found in Text"
check matches case-insensitively: whenever a citation occurs in the text
only under case folding (case-insensitively but not literally),
`check_citation_in_text` answers true and `highlight_citations` leaves
the text unchanged. -/
theorem highlight_check_case_mismatch (c t : List Char)
    (hci : pyIn (pyLower c) (pyLower t) = true) (hlit : pyIn c t = false) :
    check_citation_in_text c t = true ∧ highlight_citations t [c] = t := by
  have hcnil : c ≠ [] := by
    intro h
    rw [h, pyIn_nil_left] at hlit
    exact Bool.noConfusion hlit
  have hcne : c.isEmpty = false := by
    cases hce : c.isEmpty
    · rfl
    · exact absurd (by simpa [List.isEmpty_eq_true] using hce) hcnil
  have htne : t.isEmpty = false := by
    cases hte : t.isEmpty
    · rfl
    · exfalso
      have h0 : t = [] := by simpa [List.isEmpty_eq_true] using hte
      rw [h0] at hci
      rw [show pyLower ([] : List Char) = [] from rfl, pyIn_nil_right,
        List.isEmpty_eq_true, pyLower_eq_nil_iff] at hci
      exact hcnil hci
  constructor
  · rw [check_citation_in_text, hcne, htne]
    simpa using hci
  · show List.foldl highlightStep t [c] = t
    rw [List.foldl_cons, List.foldl_nil, highlightStep, if_neg (by simp [hlit])]

/-- C10 witness: `c = "Foo"`, `t = "foo"` — found case-insensitively,
not found literally, text returned unchanged by the highlighter. -/
theorem highlight_check_case_mismatch_wit :
    (pyIn (pyLower "Foo".toList) (pyLower "foo".toList) = true ∧
      pyIn "Foo".toList "foo".toList = false) ∧
    (check_citation_in_text "Foo".toList "foo".toList = true ∧
      highlight_citations "foo".toList ["Foo".toList] = "foo".toList) :=
  ⟨⟨by decide, by decide⟩,
   highlight_check_case_mismatch "Foo".toList "foo".toList (by decide) (by decide)⟩

/-! ## Corpus model

The app's session state: a list of passages (`st.session_state.text_passages`)
and a Python dict from passage index to a pandas `DataFrame`
(`st.session_state.annotations`).  A `DataFrame` is modelled by its column
names and its rows (all cell values in this app are strings, and every
frame carries the canonical `RangeIndex 0..n-1`, which every constructor
used by the app — `pd.DataFrame`, `concat(ignore_index=True)`,
`reset_index(drop=True)` — guarantees, so row labels coincide with row
positions).  A Python dict is modelled as an insertion-ordered
association list with unique keys; dict keys arising in `load_data` are
`int(idx)` results, so they may be integers or strings. -/

/-- A pandas DataFrame of string cells: column names plus row-major cells. -/
structure DF where
  cols : List String
  rows : List (List String)
deriving DecidableEq, Repr

/-- A Python dict key as produced by `load_data`: `int(idx)` when the JSON
object key parses as an integer, the raw string otherwise. -/
inductive PyKey where
  | kInt (n : Int)
  | kStr (s : String)
deriving DecidableEq, Repr

/-- The mutable session state of the app. -/
structure AppState where
  text_passages : List String
  annotations : List (PyKey × DF)
deriving DecidableEq, Repr

instance : Inhabited DF := ⟨⟨[], []⟩⟩

/-- The three core annotation columns. -/
def coreColsS : List String :=
  ["Citation", "Metadata", "Annotation_Text"]

/-- The one-empty-row frame the app uses for passages without annotations. -/
def defaultTable : DF :=
  ⟨coreColsS, [["", "", ""]]⟩

/-- Python `k in d` on a dict. -/
def dictMem (d : List (PyKey × DF)) (k : PyKey) : Bool :=
  d.any (fun p => p.1 == k)

/-- Python `d[k]` read (first — and in a dict only — entry with key `k`). -/
def dictFind (d : List (PyKey × DF)) (k : PyKey) : Option DF :=
  (d.find? (fun p => p.1 == k)).map Prod.snd

/-- Python `d[k] = v`: replaces the value in place if the key exists,
appends a new entry otherwise (dicts preserve insertion order). -/
def dictInsert (d : List (PyKey × DF)) (k : PyKey) (v : DF) : List (PyKey × DF) :=
  if dictMem d k then d.map (fun p => if p.1 == k then (k, v) else p)
  else d ++ [(k, v)]

/-- Python `del d[k]` (keys are unique in a dict, so removing all entries
with key `k` removes exactly the one entry). -/
def dictDelete (d : List (PyKey × DF)) (k : PyKey) : List (PyKey × DF) :=
  d.filter (fun p => !(p.1 == k))

/-- The canonical annotations dict of a well-formed corpus: tables listed
in passage order under keys `n, n+1, …`. -/
def indexDictFrom (n : Nat) : List DF → List (PyKey × DF)
  | [] => []
  | t :: ts => (PyKey.kInt (Int.ofNat n), t) :: indexDictFrom (n + 1) ts

/-- `initialize_session_state` (src lines 55-92): the default seed corpus. -/
def initialize_session_state : AppState :=
  ⟨["Dies ist der erste Beispielabsatz. Er enthält grundlegende Informationen.",
    "Dieser zweite Absatz bietet ergänzende Details und Kontext zum Thema."],
   [(PyKey.kInt 0,
     ⟨coreColsS,
      [["Beispielabsatz",
        "Author: Mustermann, Year: 2023, Page: 45",
        "Diese Passage führt in das Thema ein und stellt die Grundlagen dar."],
       ["grundlegende Informationen",
        "Author: Schmidt, Year: 2022, Chapter: 3",
        "Der Begriff \"grundlegende Informationen\" bezieht sich auf Basisdaten."]]⟩),
    (PyKey.kInt 1,
     ⟨coreColsS,
      [["ergänzende Details",
        "Author: Weber, Year: 2024, Volume: 2, Page: 78",
        "Dieser Absatz erweitert die Grundlagen um wichtige Kontextinformationen."]]⟩)]⟩

/-- `remove_annotation_row(passage_index, row_index)` (src lines 120-125).
Reading `st.session_state.annotations[passage_index]` raises `KeyError`
for a missing passage key.  The guard `len(df) > row_index` is also
satisfied by every *negative* `row_index`, in which case
`df.drop(index=row_index)` raises `KeyError` because no row label is
negative under the canonical `RangeIndex`; only `0 ≤ row_index < len(df)`
actually drops a row, and `row_index ≥ len(df)` is a silent no-op. -/
def remove_annotation_row (st : AppState) (passage_index : PyKey)
    (row_index : Int) : Except String AppState :=
  match dictFind st.annotations passage_index with
  | none => .error "KeyError: passage index"
  | some df =>
    if (df.rows.length : Int) > row_index then
      if 0 ≤ row_index then
        .ok ⟨st.text_passages,
          dictInsert st.annotations passage_index
            ⟨df.cols, df.rows.eraseIdx row_index.toNat⟩⟩
      else .error "KeyError: row label not found"
    else .ok st

/-- The table chosen for new position `i` by the reindexing loop of
`remove_text_passage`: `old_index = i if i < index else i + 1`, then the
old dict's entry if present, else a fresh default table. -/
def reindexPick (d : List (PyKey × DF)) (index i : Nat) : DF :=
  match dictFind d (PyKey.kInt (Int.ofNat (if i < index then i else i + 1))) with
  | some df => df
  | none => defaultTable

/-- `remove_text_passage(index)` (src lines 137-156): guarded to keep at
least one passage; pops the passage (`list.pop` raises `IndexError` out
of bounds), deletes its annotation entry if present, and rebuilds the
dict by the shift-down reindexing loop. -/
def remove_text_passage (st : AppState) (index : Nat) : Except String AppState :=
  if st.text_passages.length > 1 then
    if index < st.text_passages.length then
      let newPassages := st.text_passages.eraseIdx index
      let d1 :=
        if dictMem st.annotations (PyKey.kInt (Int.ofNat index)) then
          dictDelete st.annotations (PyKey.kInt (Int.ofNat index))
        else st.annotations
      .ok ⟨newPassages,
        (List.range newPassages.length).foldl
          (fun acc i => dictInsert acc (PyKey.kInt (Int.ofNat i)) (reindexPick d1 index i))
          []⟩
    else .error "IndexError: pop index out of range"
  else .ok st

/-- C7 (amended): for a passage's annotation table and an integer row
index, `remove_annotation_row` removes exactly the row at that index when
`0 ≤ row < len`, is a silent no-op for `row ≥ len`, but *raises* a
`KeyError` (rather than silently ignoring) for every negative index,
because `len(df) > row_index` also admits negative indices and
`df.drop(index=row_index)` then fails to find the label. -/
theorem remove_annotation_row_spec (st : AppState) (k : PyKey) (df : DF) (r : Int)
    (hfind : dictFind st.annotations k = some df) :
    (0 ≤ r → r < (df.rows.length : Int) → remove_annotation_row st k r
        = .ok ⟨st.text_passages,
            dictInsert st.annotations k ⟨df.cols, df.rows.eraseIdx r.toNat⟩⟩) ∧
    ((df.rows.length : Int) ≤ r → remove_annotation_row st k r = .ok st) ∧
    (r < 0 → remove_annotation_row st k r
        = .error "KeyError: row label not found") := by
  refine ⟨fun h0 hlt => ?_, fun hge => ?_, fun hneg => ?_⟩
  · simp only [remove_annotation_row, hfind]
    rw [if_pos (by omega), if_pos h0]
  · simp only [remove_annotation_row, hfind]
    rw [if_neg (by omega)]
  · simp only [remove_annotation_row, hfind]
    rw [if_pos (by omega), if_neg (by omega)]

/-- C7 witness: in-bounds removal of row 0 of the first default table. -/
theorem remove_annotation_row_spec_wit :
    ((0 : Int) ≤ 0 ∧ (0 : Int) < 2) ∧
    remove_annotation_row initialize_session_state (PyKey.kInt 0) 0
      = .ok ⟨initialize_session_state.text_passages,
          dictInsert initialize_session_state.annotations (PyKey.kInt 0)
            ⟨coreColsS,
             [["grundlegende Informationen",
               "Author: Schmidt, Year: 2022, Chapter: 3",
               "Der Begriff \"grundlegende Informationen\" bezieht sich auf Basisdaten."]]⟩⟩ :=
  ⟨⟨by decide, by decide⟩, by
    exact (remove_annotation_row_spec initialize_session_state (PyKey.kInt 0)
      (⟨coreColsS,
        [["Beispielabsatz",
          "Author: Mustermann, Year: 2023, Page: 45",
          "Diese Passage führt in das Thema ein und stellt die Grundlagen dar."],
         ["grundlegende Informationen",
          "Author: Schmidt, Year: 2022, Chapter: 3",
          "Der Begriff \"grundlegende Informationen\" bezieht sich auf Basisdaten."]]⟩)
      0 rfl).1 (by decide) (by decide)⟩

/-- C7 counterexample: the negative index `-1` is *not* silently ignored:
the guard `len(df) > -1` passes and `df.drop(index=-1)` raises `KeyError`,
contradicting the claim that every out-of-range index (including negative
ones) is a silent no-op that never raises. -/
theorem cex_remove_annotation_row_negative :
    remove_annotation_row initialize_session_state (PyKey.kInt 0) (-1)
      = .error "KeyError: row label not found" := by
  rfl

/-! ## Dict lemmas for the reindexing proof -/

lemma dictFind_cons (p : PyKey × DF) (ps : List (PyKey × DF)) (k : PyKey) :
    dictFind (p :: ps) k = if p.1 = k then some p.2 else dictFind ps k := by
  rw [dictFind, List.find?_cons]
  cases hb : (p.1 == k) with
  | true =>
    rw [if_pos (by simpa using hb)]
    rfl
  | false =>
    rw [if_neg (by simpa using hb)]
    rfl

lemma dictFind_indexDictFrom (ts : List DF) (n j : Nat) :
    dictFind (indexDictFrom n ts) (PyKey.kInt (Int.ofNat (n + j))) = ts[j]? := by
  induction ts generalizing n j with
  | nil => rfl
  | cons t ts ih =>
    cases j with
    | zero =>
      rw [indexDictFrom, dictFind_cons, if_pos (by simp)]
      simp
    | succ j =>
      rw [indexDictFrom, dictFind_cons, if_neg (by simp; omega),
        show n + (j + 1) = (n + 1) + j by omega, ih (n + 1) j,
        List.getElem?_cons_succ]

lemma dictMem_eq_isSome (d : List (PyKey × DF)) (k : PyKey) :
    dictMem d k = (dictFind d k).isSome := by
  induction d with
  | nil => rfl
  | cons p ps ih =>
    rw [dictMem, List.any_cons, dictFind_cons]
    cases hb : (p.1 == k) with
    | true =>
      rw [if_pos (by simpa using hb), Bool.true_or]
      rfl
    | false =>
      rw [if_neg (by simpa using hb), Bool.false_or]
      rw [dictMem] at ih
      exact ih

lemma dictFind_dictDelete (d : List (PyKey × DF)) (k k' : PyKey) :
    dictFind (dictDelete d k) k' = if k' = k then none else dictFind d k' := by
  induction d with
  | nil =>
    by_cases h : k' = k <;> simp [dictDelete, dictFind, h]
  | cons p ps ih =>
    rw [dictDelete, List.filter_cons]
    rw [dictDelete] at ih
    by_cases hpk : p.1 = k
    · rw [if_neg (by simp [hpk]), ih]
      by_cases hk : k' = k
      · simp [hk]
      · rw [if_neg hk, if_neg hk, dictFind_cons,
          if_neg (fun he => hk (he.symm.trans hpk))]
    · rw [if_pos (by simp [hpk]), dictFind_cons, ih]
      by_cases hph : p.1 = k'
      · rw [if_pos hph, if_neg (fun he => hpk (hph.trans he)), dictFind_cons,
          if_pos hph]
      · rw [if_neg hph]
        by_cases hk : k' = k
        · simp [hk]
        · rw [if_neg hk, if_neg hk, dictFind_cons, if_neg hph]

lemma foldl_dictInsert_fresh (g : Nat → DF) (n : Nat) :
    (List.range n).foldl
        (fun acc i => dictInsert acc (PyKey.kInt (Int.ofNat i)) (g i)) []
      = (List.range n).map (fun i => (PyKey.kInt (Int.ofNat i), g i)) := by
  induction n with
  | zero => rfl
  | succ n ih =>
    rw [List.range_succ, List.foldl_append, List.foldl_cons, List.foldl_nil, ih,
      List.map_append]
    have hfresh :
        dictMem ((List.range n).map (fun i => (PyKey.kInt (Int.ofNat i), g i)))
          (PyKey.kInt (Int.ofNat n)) = false := by
      rw [dictMem, List.any_eq_false]
      intro p hp
      simp only [List.mem_map, List.mem_range] at hp
      obtain ⟨i, hi, rfl⟩ := hp
      show ¬(PyKey.kInt (Int.ofNat i) == PyKey.kInt (Int.ofNat n)) = true
      simp only [beq_iff_eq, PyKey.kInt.injEq]
      exact fun h => absurd (Int.ofNat.inj h) (by omega)
    rw [dictInsert, hfresh]
    simp

lemma indexDictFrom_eq_map (ts : List DF) (n : Nat) :
    indexDictFrom n ts
      = (List.range ts.length).map
          (fun i => (PyKey.kInt (Int.ofNat (n + i)), ts.getD i defaultTable)) := by
  induction ts generalizing n with
  | nil => rfl
  | cons t ts ih =>
    rw [indexDictFrom, ih (n + 1), List.length_cons, List.range_succ_eq_map,
      List.map_cons, List.map_map]
    congr 1
    refine List.map_congr_left fun i hi => ?_
    have h1 : n + 1 + i = n + (i + 1) := by omega
    simp [Function.comp, List.getD_cons_succ, h1]

lemma dictFind_indexDict0 (ts : List DF) (j : Nat) :
    dictFind (indexDictFrom 0 ts) (PyKey.kInt (Int.ofNat j)) = ts[j]? := by
  simpa using dictFind_indexDictFrom ts 0 j

lemma reindexPick_eraseIdx (tables : List DF) (i j : Nat)
    (hi : i < tables.length) (hj : j < tables.length - 1) :
    reindexPick (dictDelete (indexDictFrom 0 tables) (PyKey.kInt (Int.ofNat i))) i j
      = (tables.eraseIdx i).getD j defaultTable := by
  rw [reindexPick, dictFind_dictDelete,
    if_neg (by
      simp only [ne_eq, PyKey.kInt.injEq]
      intro h
      have := Int.ofNat.inj h
      by_cases hji : j < i <;> simp [hji] at this <;> omega),
    dictFind_indexDict0,
    List.getD_eq_getElem?_getD, List.getElem?_eraseIdx]
  by_cases hji : j < i
  · rw [if_pos hji, if_pos hji,
      List.getElem?_eq_getElem (show j < tables.length by omega)]
    rfl
  · rw [if_neg hji, if_neg hji,
      List.getElem?_eq_getElem (show j + 1 < tables.length by omega)]
    rfl

/-- C6: `remove_text_passage` is a no-op on a one-passage corpus; on a
well-formed corpus with `N ≥ 2` passages and a valid position `i` it
removes passage `i` together with its annotation table, and every
surviving passage keeps its own table: the annotations dict of the
result is exactly the index dict of `tables` with entry `i` erased
(tables above `i` shift down by one, element-wise unchanged). -/
theorem remove_text_passage_spec (passages : List String) (tables : List DF)
    (i : Nat) (hlen : tables.length = passages.length) :
    (passages.length = 1 →
      remove_text_passage ⟨passages, indexDictFrom 0 tables⟩ i
        = .ok ⟨passages, indexDictFrom 0 tables⟩) ∧
    (2 ≤ passages.length → i < passages.length →
      remove_text_passage ⟨passages, indexDictFrom 0 tables⟩ i
        = .ok ⟨passages.eraseIdx i, indexDictFrom 0 (tables.eraseIdx i)⟩) := by
  constructor
  · intro h1
    rw [remove_text_passage, if_neg (by show ¬passages.length > 1; omega)]
  · intro h2 hi
    have hit : i < tables.length := by omega
    have hmem : dictMem (indexDictFrom 0 tables) (PyKey.kInt (Int.ofNat i)) = true := by
      rw [dictMem_eq_isSome, dictFind_indexDict0,
        List.getElem?_eq_getElem hit]
      rfl
    rw [remove_text_passage, if_pos (by show passages.length > 1; omega),
      if_pos (by show i < passages.length; omega)]
    simp only [hmem, if_true]
    have hl1 : (passages.eraseIdx i).length = passages.length - 1 := by
      rw [List.length_eraseIdx, if_pos hi]
    rw [hl1, foldl_dictInsert_fresh (reindexPick
        (dictDelete (indexDictFrom 0 tables) (PyKey.kInt (Int.ofNat i))) i),
      indexDictFrom_eq_map (tables.eraseIdx i) 0]
    have hl2 : (tables.eraseIdx i).length = passages.length - 1 := by
      rw [List.length_eraseIdx, if_pos hit, hlen]
    rw [hl2]
    congr 2
    refine List.map_congr_left fun j hj => ?_
    simp only [List.mem_range] at hj
    rw [Nat.zero_add, reindexPick_eraseIdx tables i j hit (by omega)]

/-- C6 witness: removing passage 0 from a concrete two-passage corpus
drops its passage and its table, and the second table shifts to index 0. -/
theorem remove_text_passage_spec_wit :
    (2 ≤ (["A", "B"] : List String).length ∧ 0 < (["A", "B"] : List String).length) ∧
    remove_text_passage
        ⟨["A", "B"],
         indexDictFrom 0 [defaultTable, ⟨coreColsS, [["b", "m", "y"]]⟩]⟩ 0
      = .ok ⟨["B"], indexDictFrom 0 [⟨coreColsS, [["b", "m", "y"]]⟩]⟩ :=
  ⟨⟨by decide, by decide⟩,
   (remove_text_passage_spec ["A", "B"]
      [defaultTable, ⟨coreColsS, [["b", "m", "y"]]⟩] 0 rfl).2
     (by decide) (by decide)⟩

/-! ## JSON adapter

`save_data` is `json.dumps(export_data())` and `load_data` starts with
`json.loads`.  The JSON layer is modelled at the level of JSON values:
`export_data` below produces the JSON value that `json.loads(save_data())`
would yield (in particular, the integer dict keys of the annotations dict
are stringified, exactly as `json.dumps` does), and `load_data` consumes
the result of `json.loads` — `Except.error` for a `json.JSONDecodeError`,
`Except.ok` with the parsed value otherwise.  Only the JSON shapes the
app itself can produce or meaningfully consume are modelled; shapes that
pandas would accept with exotic semantics are flagged `unmodelled` and
are exercised by no theorem. -/

/-- Map a partial function over a list, failing if any element fails
(`Option`-valued `mapM`, written out for easy induction). -/
def omapM {a b : Type} (f : a → Option b) : List a → Option (List b)
  | [] => some []
  | x :: xs =>
    match f x with
    | none => none
    | some y =>
      match omapM f xs with
      | none => none
      | some ys => some (y :: ys)

/-- A JSON value (the app's data needs strings, numbers, arrays, objects). -/
inductive JValue where
  | jstr (s : String)
  | jint (n : Int)
  | jarr (xs : List JValue)
  | jobj (fields : List (String × JValue))

/-- Decimal digit character of `n < 10`. -/
def digitChar : Nat → Char
  | 0 => '0' | 1 => '1' | 2 => '2' | 3 => '3' | 4 => '4'
  | 5 => '5' | 6 => '6' | 7 => '7' | 8 => '8' | _ => '9'

/-- Numeric value of a decimal digit character. -/
def digitVal (c : Char) : Option Nat :=
  if '0' ≤ c && c ≤ '9' then some (c.toNat - 48) else none

/-- Fueled most-significant-first decimal digits of `n` (`fuel > n` suffices). -/
def digitsGo : Nat → Nat → List Char
  | 0, _ => []
  | fuel + 1, n =>
    if n < 10 then [digitChar n]
    else digitsGo fuel (n / 10) ++ [digitChar (n % 10)]

/-- Decimal representation of a natural number, as `str` prints it. -/
def natDigits (n : Nat) : List Char :=
  digitsGo (n + 1) n

/-- Python `str(n)` for an integer `n`. -/
def intToString (n : Int) : String :=
  if n < 0 then String.mk ('-' :: natDigits n.natAbs)
  else String.mk (natDigits n.natAbs)

/-- Accumulating decimal parser: `none` on the first non-digit. -/
def goDigits : List Char → Nat → Option Nat
  | [], acc => some acc
  | c :: rest, acc =>
    match digitVal c with
    | some d => goDigits rest (acc * 10 + d)
    | none => none

/-- Parse a non-empty all-digit string. -/
def parseDigits (cs : List Char) : Option Nat :=
  if cs = [] then none else goDigits cs 0

/-- Python `int(s)` on the strings this app feeds it (an optional minus
sign followed by decimal digits); other accepted spellings (whitespace,
`+`, underscores) do not arise from `json.dumps` output and are not
modelled — they parse to `none`, i.e. they raise. -/
def pyIntOfString (s : String) : Option Int :=
  match s.toList with
  | [] => none
  | c :: rest =>
    if c = '-' then (parseDigits rest).map (fun n => -(n : Int))
    else (parseDigits (c :: rest)).map (fun n => (n : Int))

/-- JSON-object field lookup with a default: Python `data.get(key, dflt)`.
`none` models the `AttributeError` raised when `data` is not a dict.
Duplicate keys cannot survive `json.loads` (last one wins), which the
right fold mirrors. -/
def jGetD (v : JValue) (key : String) (dflt : JValue) : Option JValue :=
  match v with
  | .jobj fs =>
    some ((fs.foldl (fun acc p => if p.1 == key then some p.2 else acc) none).getD dflt)
  | _ => none

/-- The value assigned to `st.session_state.text_passages` by `load_data`,
as a typed passage list: arrays of strings are the only shape the app
itself writes there (Python would store any other JSON value unchecked;
such states are outside this model). -/
def asStringList : JValue → Option (List String)
  | .jarr xs =>
    omapM (fun x => match x with | .jstr s => some s | _ => none) xs
  | _ => none

/-- Field list of a JSON record whose values are all strings. -/
def recordFieldsOpt : JValue → Option (List (String × String))
  | .jobj fs =>
    omapM (fun p => match p.2 with | .jstr s => some (p.1, s) | _ => none) fs
  | _ => none

/-- `pd.DataFrame(records)` on a list of uniform string-valued records:
the columns are the first record's keys and the rows its values;
`pd.DataFrame([])` is the empty, column-less frame.  Non-uniform or
non-record shapes (which pandas would accept with union-of-keys/NaN
semantics never produced by this app) are `none` = unmodelled. -/
def mkDFofRecords (rs : List JValue) : Option DF :=
  match omapM recordFieldsOpt rs with
  | none => none
  | some recs =>
    match recs with
    | [] => some ⟨[], []⟩
    | r0 :: _ =>
      if recs.all (fun r => r.map Prod.fst == r0.map Prod.fst) then
        some ⟨r0.map Prod.fst, recs.map (fun r => r.map Prod.snd)⟩
      else none

/-- `annotations_df.to_dict('records')`: one JSON object per row. -/
def dfRecords (df : DF) : List JValue :=
  df.rows.map (fun r => .jobj ((df.cols.zip r).map (fun p => (p.1, JValue.jstr p.2))))

/-- The per-table step of `export_data` (src lines 165-169): keep only the
three core columns when they are all present, else export the frame as is. -/
def export_df (df : DF) : DF :=
  if coreColsS.all (fun c => df.cols.contains c) then
    ⟨coreColsS,
     df.rows.map (fun r => coreColsS.map (fun c => ((df.cols.zip r).lookup c).getD ""))⟩
  else df

/-- `json.dumps` turns the integer dict keys into decimal strings. -/
def pyKeyToJsonKey : PyKey → String
  | .kInt n => intToString n
  | .kStr s => s

/-- One annotations-dict entry as exported: stringified key, list of
core-column records. -/
def exportEntry : PyKey × DF → String × JValue
  | (k, df) => (pyKeyToJsonKey k, JValue.jarr (dfRecords (export_df df)))

/-- `export_data` (src lines 158-176) composed with the JSON round through
`json.dumps`/`json.loads`: the exported object has the passages under
`text_passages` and, under `annotations`, one key per table (stringified)
mapping to its list of core-column records. -/
def export_data (st : AppState) : JValue :=
  .jobj
    [("text_passages", .jarr (st.text_passages.map JValue.jstr)),
     ("annotations", .jobj (st.annotations.map exportEntry))]

/-- How a `load_data` call ends: returning `True`, returning `False`
(after catching a `json.JSONDecodeError`), raising an uncaught exception,
or reaching a shape outside this model. -/
inductive LoadOutcome where
  | returnedTrue
  | returnedFalse
  | raised (msg : String)
  | unmodelled (msg : String)
deriving DecidableEq, Repr

/-- The `for idx, records in data.get('annotations', {}).items()` loop of
`load_data`: each key goes through `int(idx)` (falling back to the raw
string when that raises), each value through `pd.DataFrame(records)`
(which raises `ValueError` on scalars), and the entries are committed to
the annotations dict one by one — a raise mid-loop keeps the partial dict. -/
def loadAnnots : List (String × JValue) → List (PyKey × DF)
    → LoadOutcome × List (PyKey × DF)
  | [], acc => (.returnedTrue, acc)
  | (idx, records) :: rest, acc =>
    let key := match pyIntOfString idx with
      | some n => PyKey.kInt n
      | none => PyKey.kStr idx
    match records with
    | .jarr rs =>
      match mkDFofRecords rs with
      | some df => loadAnnots rest (dictInsert acc key df)
      | none => (.unmodelled "DataFrame shape beyond model", acc)
    | .jobj _ => (.unmodelled "DataFrame from dict beyond model", acc)
    | _ => (.raised "ValueError: DataFrame constructor not properly called", acc)

/-- `load_data(json_str)` (src lines 178-194).  The input is the result of
`json.loads`: `Except.error` when parsing raised `json.JSONDecodeError` —
that is the only exception the function catches (`st.error` + `return
False`, state untouched).  On a parsed value, the assignments run in
source order: `text_passages` is overwritten first, then the annotations
dict is reset to `{}` and filled entry by entry; `data.get` on a non-dict
and `.items()` on a non-dict raise `AttributeError` uncaught, *after* the
assignments already made. -/
def load_data (st : AppState) (input : Except String JValue) :
    LoadOutcome × AppState :=
  match input with
  | .error _ => (.returnedFalse, st)
  | .ok data =>
    match jGetD data "text_passages" (.jarr []) with
    | none => (.raised "AttributeError: get on non-dict", st)
    | some tp =>
      match asStringList tp with
      | none => (.unmodelled "text_passages shape beyond model", st)
      | some ps =>
        match jGetD data "annotations" (.jobj []) with
        | none => (.raised "AttributeError: get on non-dict", ⟨ps, []⟩)
        | some av =>
          match av with
          | .jobj fields =>
            let res := loadAnnots fields []
            (res.1, ⟨ps, res.2⟩)
          | _ => (.raised "AttributeError: items on non-dict", ⟨ps, []⟩)

/-- C4 (amended): when `json.loads` itself fails — a genuine decode error,
the only failure `load_data` handles — the error is reported, the function
returns `False`, and the prior corpus (passages and annotation tables) is
left exactly as it was.  For *well-formed* JSON of the wrong shape,
however, `load_data` raises an uncaught exception and can leave the state
partially overwritten (see the counterexample). -/
theorem load_data_decode_error_preserves_state (st : AppState) (e : String) :
    load_data st (.error e) = (LoadOutcome.returnedFalse, st) := rfl

/-- C4 counterexample: the byte string `{"text_passages": ["x"],
"annotations": 5}` is valid JSON, so `json.loads` succeeds; `load_data`
then overwrites `text_passages` with `["x"]`, resets the annotations dict
to `{}`, and only then crashes with an uncaught `AttributeError` on
`5 .items()` — the import fails *and* the corpus is left partially
overwritten, contradicting the claim. -/
theorem cex_load_data_partial_overwrite :
    load_data initialize_session_state
        (.ok (JValue.jobj
          [("text_passages", JValue.jarr [JValue.jstr "x"]),
           ("annotations", JValue.jint 5)]))
      = (LoadOutcome.raised "AttributeError: items on non-dict",
         (⟨["x"], []⟩ : AppState)) ∧
    (⟨["x"], []⟩ : AppState) ≠ initialize_session_state := by
  constructor
  · rfl
  · decide

/-! ## Decimal round-trip lemmas -/

lemma digitVal_digitChar (d : Nat) (hd : d < 10) :
    digitVal (digitChar d) = some d := by
  interval_cases d <;> rfl

lemma goDigits_append (xs ys : List Char) (acc : Nat) :
    goDigits (xs ++ ys) acc
      = match goDigits xs acc with
        | some v => goDigits ys v
        | none => none := by
  induction xs generalizing acc with
  | nil => rfl
  | cons c rest ih =>
    cases hdv : digitVal c with
    | none => simp [goDigits, hdv]
    | some d => simp [goDigits, hdv, ih]

lemma goDigits_digitsGo (fuel : Nat) :
    ∀ n acc, n < fuel →
      goDigits (digitsGo fuel n) acc
        = some (acc * 10 ^ (digitsGo fuel n).length + n) := by
  induction fuel with
  | zero => omega
  | succ fuel ih =>
    intro n acc hf
    by_cases h10 : n < 10
    · rw [digitsGo, if_pos h10]
      simp [goDigits, digitVal_digitChar n h10]
    · rw [digitsGo, if_neg h10, goDigits_append]
      have hdiv : n / 10 < fuel := by
        have h1 : n / 10 < n := Nat.div_lt_self (by omega) (by omega)
        omega
      rw [ih (n / 10) acc hdiv]
      simp only [goDigits, digitVal_digitChar (n % 10) (by omega : n % 10 < 10),
        List.length_append, List.length_cons, List.length_nil]
      have hexp : (10 : Nat) ^ ((digitsGo fuel (n / 10)).length + (0 + 1))
          = 10 ^ (digitsGo fuel (n / 10)).length * 10 := by
        rw [Nat.zero_add, pow_succ]
      rw [hexp]
      have hmod := Nat.div_add_mod n 10
      congr 1
      nlinarith [hmod]

lemma digitsGo_ne_nil (fuel n : Nat) (hf : 0 < fuel) : digitsGo fuel n ≠ [] := by
  cases fuel with
  | zero => omega
  | succ fuel =>
    rw [digitsGo]
    by_cases h10 : n < 10 <;> simp [h10]

lemma digitsGo_all_digit (fuel : Nat) :
    ∀ n, ∀ c ∈ digitsGo fuel n, (digitVal c).isSome := by
  induction fuel with
  | zero => simp [digitsGo]
  | succ fuel ih =>
    intro n c hc
    rw [digitsGo] at hc
    by_cases h10 : n < 10
    · rw [if_pos h10] at hc
      simp only [List.mem_singleton] at hc
      subst hc
      simp [digitVal_digitChar n h10]
    · rw [if_neg h10] at hc
      rcases List.mem_append.1 hc with h | h
      · exact ih _ c h
      · simp only [List.mem_singleton] at h
        subst h
        simp [digitVal_digitChar (n % 10) (by omega)]

lemma parseDigits_natDigits (n : Nat) : parseDigits (natDigits n) = some n := by
  rw [natDigits, parseDigits, if_neg (digitsGo_ne_nil (n + 1) n (by omega))]
  have h := goDigits_digitsGo (n + 1) n 0 (by omega)
  simpa using h

lemma pyIntOfString_intToString (n : Nat) :
    pyIntOfString (intToString (Int.ofNat n)) = some (Int.ofNat n) := by
  rw [intToString, if_neg (by simp),
    show (Int.ofNat n).natAbs = n from rfl]
  rcases hnd : natDigits n with _ | ⟨c, rest⟩
  · exact absurd hnd (digitsGo_ne_nil (n + 1) n (by omega))
  · have hdig : (digitVal c).isSome := by
      have h := digitsGo_all_digit (n + 1) n c
      rw [← natDigits] at h
      exact h (hnd ▸ List.mem_cons_self c rest)
    have hcm : ¬ c = '-' := by
      intro h
      rw [h] at hdig
      exact absurd hdig (by decide)
    change (if c = '-' then _ else _) = _
    rw [if_neg hcm, ← hnd, parseDigits_natDigits]
    simp

/-! ## Round-trip lemmas for the JSON adapter -/

/-- Well-formed annotation table: exactly the three core columns, rows of
matching width. -/
def wfDF (df : DF) : Prop :=
  df.cols = coreColsS ∧ ∀ r ∈ df.rows, r.length = 3

instance (df : DF) : Decidable (wfDF df) := by
  unfold wfDF
  infer_instance

/-- What a table becomes after the JSON round trip: `pd.DataFrame([])`
loses the column names of a rowless table; any table with rows survives
unchanged. -/
def reconstructDF (df : DF) : DF :=
  if df.rows.isEmpty then ⟨[], []⟩ else df

/-- The `(citation, metadata, annotation_text)` tuples of a table — the
data the round-trip claim compares. -/
def dfTuples (df : DF) : List (String × String × String) :=
  df.rows.map (fun r =>
    (((df.cols.zip r).lookup "Citation").getD "",
     ((df.cols.zip r).lookup "Metadata").getD "",
     ((df.cols.zip r).lookup "Annotation_Text").getD ""))

/-- A corpus as the claim observes it: the passage list and, per dict
entry, its key and its annotation tuples. -/
def corpusView (st : AppState) :
    List String × List (PyKey × List (String × String × String)) :=
  (st.text_passages, st.annotations.map (fun p => (p.1, dfTuples p.2)))

lemma export_row_proj (a b c : String) :
    coreColsS.map (fun col => ((coreColsS.zip [a, b, c]).lookup col).getD "")
      = [a, b, c] := rfl

lemma export_df_wf (df : DF) (h : wfDF df) : export_df df = df := by
  obtain ⟨hc, hr⟩ := h
  rw [export_df, if_pos (by rw [hc]; decide)]
  cases df with
  | mk cols rows =>
    simp only at hc hr ⊢
    subst hc
    congr 1
    conv_rhs => rw [← List.map_id rows]
    refine List.map_congr_left fun r hrmem => ?_
    obtain ⟨a, b, c, rfl⟩ := List.length_eq_three.1 (hr r hrmem)
    exact export_row_proj a b c

lemma omapM_jstr (ps : List String) :
    omapM (fun x => match x with | JValue.jstr s => some s | _ => none)
        (ps.map JValue.jstr)
      = some ps := by
  induction ps with
  | nil => rfl
  | cons p ps ih => simp [omapM, ih]

lemma asStringList_map_jstr (ps : List String) :
    asStringList (.jarr (ps.map JValue.jstr)) = some ps := by
  rw [asStringList]
  exact omapM_jstr ps

lemma recordFieldsOpt_record (l : List (String × String)) :
    recordFieldsOpt (.jobj (l.map (fun p => (p.1, JValue.jstr p.2)))) = some l := by
  rw [recordFieldsOpt]
  induction l with
  | nil => rfl
  | cons p ps ih => simp [omapM, ih]

lemma omapM_of_each {a b c : Type} (f : b → Option c) (g : a → b) (h : a → c)
    (hfg : ∀ x, f (g x) = some (h x)) (l : List a) :
    omapM f (l.map g) = some (l.map h) := by
  induction l with
  | nil => rfl
  | cons x xs ih => simp [omapM, hfg x, ih]

lemma mkDFofRecords_dfRecords (df : DF) (h : wfDF df) :
    mkDFofRecords (dfRecords df) = some (reconstructDF df) := by
  obtain ⟨hc, hr⟩ := h
  cases df with
  | mk cols rows =>
    simp only at hc hr
    subst hc
    simp only [dfRecords, mkDFofRecords]
    rw [omapM_of_each recordFieldsOpt
        (fun r => JValue.jobj ((coreColsS.zip r).map (fun p => (p.1, JValue.jstr p.2))))
        (fun r => coreColsS.zip r)
        (fun r => recordFieldsOpt_record (coreColsS.zip r)) rows]
    cases rows with
    | nil => rfl
    | cons r rest =>
      have hkeys : ∀ r' ∈ r :: rest, (coreColsS.zip r').map Prod.fst = coreColsS := by
        intro r' hmem
        exact List.map_fst_zip coreColsS r' (by rw [hr r' hmem]; decide)
      have hall : (((r :: rest).map (fun r' => coreColsS.zip r')).all
          (fun rec => rec.map Prod.fst
            == ((fun r' => coreColsS.zip r') r).map Prod.fst)) = true := by
        rw [List.all_eq_true]
        intro rec hmem
        simp only [List.mem_map] at hmem
        obtain ⟨r', hr', rfl⟩ := hmem
        rw [hkeys r' hr', hkeys r (List.mem_cons_self r rest)]
        exact beq_self_eq_true coreColsS
      simp only [List.map_cons]
      rw [if_pos (by simpa using hall)]
      have hone : (coreColsS.zip r).map Prod.fst = coreColsS :=
        hkeys r (List.mem_cons_self r rest)
      rw [reconstructDF]
      rw [if_neg (by simp)]
      have h1 : (coreColsS.zip r).map Prod.snd = r :=
        List.map_snd_zip coreColsS r
          (by rw [hr r (List.mem_cons_self r rest)]; decide)
      have h2 : (rest.map (fun r' => coreColsS.zip r')).map
            (fun rec => rec.map Prod.snd) = rest := by
        rw [List.map_map]
        conv_rhs => rw [← List.map_id rest]
        refine List.map_congr_left fun r' hmem => ?_
        show (coreColsS.zip r').map Prod.snd = r'
        exact List.map_snd_zip coreColsS r'
          (by rw [hr r' (List.mem_cons_of_mem r hmem)]; decide)
      rw [hone, h1, h2]

lemma dfTuples_reconstructDF (df : DF) :
    dfTuples (reconstructDF df) = dfTuples df := by
  rw [reconstructDF]
  by_cases h : df.rows.isEmpty
  · rw [if_pos h]
    have h0 : df.rows = [] := by simpa [List.isEmpty_eq_true] using h
    simp [dfTuples, h0]
  · rw [if_neg h]

lemma corpusView_reconstruct (ts : List DF) (n : Nat) :
    (indexDictFrom n (ts.map reconstructDF)).map (fun p => (p.1, dfTuples p.2))
      = (indexDictFrom n ts).map (fun p => (p.1, dfTuples p.2)) := by
  induction ts generalizing n with
  | nil => rfl
  | cons t ts ih =>
    simp only [List.map_cons, indexDictFrom, List.map]
    rw [dfTuples_reconstructDF, ih (n + 1)]

lemma loadAnnots_export (tables : List DF) (n : Nat) (acc : List (PyKey × DF))
    (hwf : ∀ df ∈ tables, wfDF df)
    (hfresh : ∀ j, n ≤ j → dictMem acc (PyKey.kInt (Int.ofNat j)) = false) :
    loadAnnots ((indexDictFrom n tables).map exportEntry) acc
      = (.returnedTrue, acc ++ indexDictFrom n (tables.map reconstructDF)) := by
  induction tables generalizing n acc with
  | nil => simp [indexDictFrom, loadAnnots]
  | cons t ts ih =>
    rw [indexDictFrom, List.map_cons, exportEntry, pyKeyToJsonKey]
    have hwt : wfDF t := hwf t (List.mem_cons_self t ts)
    rw [loadAnnots]
    simp only [pyIntOfString_intToString n,
      export_df_wf t hwt, mkDFofRecords_dfRecords t hwt]
    have hins : dictInsert acc (PyKey.kInt (Int.ofNat n)) (reconstructDF t)
        = acc ++ [(PyKey.kInt (Int.ofNat n), reconstructDF t)] := by
      rw [dictInsert, hfresh n (Nat.le_refl n)]
      simp
    rw [hins, ih (n + 1) _ (fun df h => hwf df (List.mem_cons_of_mem t h))
      (by
        intro j hj
        rw [dictMem, List.any_append]
        have h1 := hfresh j (by omega)
        rw [dictMem] at h1
        rw [h1, Bool.false_or, List.any_cons, List.any_nil, Bool.or_false]
        show (PyKey.kInt (Int.ofNat n) == PyKey.kInt (Int.ofNat j)) = false
        simp only [beq_eq_false_iff_ne, ne_eq, PyKey.kInt.injEq]
        exact fun h => absurd (Int.ofNat.inj h) (by omega))]
    rw [List.map_cons, indexDictFrom, List.append_assoc]
    rfl

/-- Field names of a JSON record. -/
def recordKeys : JValue → List String
  | .jobj fs => fs.map Prod.fst
  | _ => []

/-- Field names of all records in a JSON array of records. -/
def arrRecordKeys : JValue → List String
  | .jarr recs => (recs.map recordKeys).flatten
  | _ => []

/-- Field names of all records under all keys of a JSON object of arrays. -/
def objValuesKeys : JValue → List String
  | .jobj fields => (fields.map (fun f => arrRecordKeys f.2)).flatten
  | _ => []

/-- Every annotation-record field name occurring anywhere in an exported
JSON document. -/
def exportedAnnotationFieldNames (v : JValue) : List String :=
  match v with
  | .jobj topFields => (topFields.map (fun tf => objValuesKeys tf.2)).flatten
  | _ => []

lemma mem_indexDictFrom_snd (ts : List DF) (n : Nat) (p : PyKey × DF)
    (hp : p ∈ indexDictFrom n ts) : p.2 ∈ ts := by
  induction ts generalizing n with
  | nil => cases hp
  | cons t ts ih =>
    rw [indexDictFrom] at hp
    rcases List.mem_cons.1 hp with h | h
    · subst h
      simp
    · exact List.mem_cons_of_mem _ (ih (n + 1) h)

lemma exportedAnnotationFieldNames_core (st : AppState)
    (hwf : ∀ p ∈ st.annotations, wfDF p.2) :
    ∀ s ∈ exportedAnnotationFieldNames (export_data st), s ∈ coreColsS := by
  intro s hs
  rw [export_data, exportedAnnotationFieldNames] at hs
  have hshape :
      ((([("text_passages", JValue.jarr (st.text_passages.map JValue.jstr)),
          ("annotations", JValue.jobj (st.annotations.map exportEntry))].map
            (fun tf => objValuesKeys tf.2))).flatten)
        = ((st.annotations.map exportEntry).map
            (fun f => arrRecordKeys f.2)).flatten := by
    simp [objValuesKeys]
  rw [hshape, List.map_map] at hs
  rcases List.mem_flatten.1 hs with ⟨keys, hk, hsk⟩
  simp only [List.mem_map, Function.comp_apply] at hk
  obtain ⟨p, hp, rfl⟩ := hk
  have hwp : wfDF p.2 := hwf p hp
  cases p with
  | mk k df =>
    simp only at hwp
    rw [show exportEntry (k, df) = (pyKeyToJsonKey k,
        JValue.jarr (dfRecords (export_df df))) from rfl] at hsk
    simp only [arrRecordKeys, export_df_wf df hwp] at hsk
    rcases List.mem_flatten.1 hsk with ⟨ks, hks, hsks⟩
    rw [dfRecords, List.map_map] at hks
    rcases List.mem_map.1 hks with ⟨r, hrrow, rfl⟩
    simp only [Function.comp_apply] at hsks
    rw [show recordKeys (JValue.jobj ((df.cols.zip r).map
        (fun p => (p.1, JValue.jstr p.2))))
        = ((df.cols.zip r).map (fun p => (p.1, JValue.jstr p.2))).map Prod.fst
        from rfl, List.map_map] at hsks
    have hfst : (df.cols.zip r).map
        (Prod.fst ∘ (fun p : String × String => (p.1, JValue.jstr p.2)))
        = (df.cols.zip r).map Prod.fst := rfl
    rw [hfst, List.map_fst_zip df.cols r
      (by rw [hwp.1, hwp.2 r hrrow]; decide), hwp.1] at hsks
    exact hsks

/-- C3: JSON import of JSON export.  For a well-formed corpus (tables with
exactly the three core fields), `load_data` applied to the `save_data`
output returns `True` and reproduces, whatever the prior state was, the
same passage list in the same order and, for every passage position, the
same ordered list of `(citation, metadata, annotation_text)` tuples; and
the derived `"Found in Text"` field never appears in the exported JSON. -/
theorem json_roundtrip (st0 : AppState) (passages : List String)
    (tables : List DF) (hwf : ∀ df ∈ tables, wfDF df) :
    (load_data st0 (.ok (export_data ⟨passages, indexDictFrom 0 tables⟩))).1
        = LoadOutcome.returnedTrue ∧
    corpusView
        (load_data st0 (.ok (export_data ⟨passages, indexDictFrom 0 tables⟩))).2
      = corpusView ⟨passages, indexDictFrom 0 tables⟩ ∧
    "Found in Text" ∉ exportedAnnotationFieldNames
        (export_data ⟨passages, indexDictFrom 0 tables⟩) := by
  have hload :
      load_data st0 (.ok (export_data ⟨passages, indexDictFrom 0 tables⟩))
        = (LoadOutcome.returnedTrue,
           ⟨passages, indexDictFrom 0 (tables.map reconstructDF)⟩) := by
    rw [load_data]
    rw [show jGetD (export_data ⟨passages, indexDictFrom 0 tables⟩)
        "text_passages" (.jarr [])
        = some (.jarr (passages.map JValue.jstr)) from rfl]
    simp only [asStringList_map_jstr]
    rw [show jGetD (export_data ⟨passages, indexDictFrom 0 tables⟩)
        "annotations" (.jobj [])
        = some (.jobj ((indexDictFrom 0 tables).map exportEntry)) from rfl]
    simp only [loadAnnots_export tables 0 [] hwf (fun j hj => rfl),
      List.nil_append]
  refine ⟨by rw [hload], ?_, ?_⟩
  · rw [hload, corpusView, corpusView]
    simp only
    rw [corpusView_reconstruct]
  · intro hmem
    have h := exportedAnnotationFieldNames_core
      ⟨passages, indexDictFrom 0 tables⟩
      (fun p hp => hwf p.2 (mem_indexDictFrom_snd tables 0 p hp))
      "Found in Text" hmem
    revert h
    decide

/-- C3 witness: the round trip at the spec's own concrete corpus, with one
table of one row and one empty table (exercising the rowless case). -/
theorem json_roundtrip_wit :
    (∀ df ∈ [(⟨coreColsS, [["Fuchs", "", ""]]⟩ : DF), (⟨coreColsS, []⟩ : DF)],
        wfDF df) ∧
    ((load_data initialize_session_state
        (.ok (export_data ⟨["Der Fuchs springt.", "Der Hund schläft."],
          indexDictFrom 0
            [(⟨coreColsS, [["Fuchs", "", ""]]⟩ : DF), (⟨coreColsS, []⟩ : DF)]⟩))).1
        = LoadOutcome.returnedTrue ∧
      corpusView (load_data initialize_session_state
        (.ok (export_data ⟨["Der Fuchs springt.", "Der Hund schläft."],
          indexDictFrom 0
            [(⟨coreColsS, [["Fuchs", "", ""]]⟩ : DF), (⟨coreColsS, []⟩ : DF)]⟩))).2
        = corpusView ⟨["Der Fuchs springt.", "Der Hund schläft."],
            indexDictFrom 0
              [(⟨coreColsS, [["Fuchs", "", ""]]⟩ : DF), (⟨coreColsS, []⟩ : DF)]⟩ ∧
      "Found in Text" ∉ exportedAnnotationFieldNames
        (export_data ⟨["Der Fuchs springt.", "Der Hund schläft."],
          indexDictFrom 0
            [(⟨coreColsS, [["Fuchs", "", ""]]⟩ : DF), (⟨coreColsS, []⟩ : DF)]⟩)) :=
  ⟨by decide,
   json_roundtrip initialize_session_state
     ["Der Fuchs springt.", "Der Hund schläft."]
     [(⟨coreColsS, [["Fuchs", "", ""]]⟩ : DF), (⟨coreColsS, []⟩ : DF)]
     (by decide)⟩

/-! ## Spreadsheet adapter (`import_excel`) -/

/-- Lexicographic code-point comparison of character lists — Python's
`<` on strings, which is what `pandas.groupby(sort=True)` sorts keys by. -/
def charListLt : List Char → List Char → Bool
  | [], [] => false
  | [], _ :: _ => true
  | _ :: _, [] => false
  | a :: as, b :: bs =>
    if a < b then true else if b < a then false else charListLt as bs

/-- Python `a < b` on strings. -/
def strLt (a b : String) : Bool :=
  charListLt a.toList b.toList

/-- Insert into an ascending list before the first larger element. -/
def insertAsc (x : String) : List String → List String
  | [] => [x]
  | y :: ys => if strLt x y then x :: y :: ys else y :: insertAsc x ys

/-- Ascending sort (insertion sort; on the duplicate-free group keys this
is the sorted order `groupby` iterates in). -/
def pySortAsc (l : List String) : List String :=
  l.foldr insertAsc []

/-- First-seen deduplication, accumulator-passing. -/
def dedupFSGo : List String → List String → List String
  | [], acc => acc
  | x :: xs, acc => dedupFSGo xs (if acc.contains x then acc else acc ++ [x])

/-- The distinct values of a list in order of first appearance. -/
def dedupFS (l : List String) : List String :=
  dedupFSGo l []

/-- Cell of a row under a column name (first matching column). -/
def rowCell (cols : List String) (r : List String) (c : String) : String :=
  ((cols.zip r).lookup c).getD ""

/-- The `Text` column of the spreadsheet. -/
def textCol (df : DF) : List String :=
  df.rows.map (fun r => rowCell df.cols r "Text")

/-- The rows whose `Text` cell equals `t`, in original row order
(a `groupby` group). -/
def dfFilterText (df : DF) (t : String) : DF :=
  ⟨df.cols, df.rows.filter (fun r => rowCell df.cols r "Text" == t)⟩

/-- `df[cs]` column selection; `none` models the `KeyError` raised when a
requested column is missing. -/
def dfSelect (df : DF) (cs : List String) : Option DF :=
  if cs.all df.cols.contains then
    some ⟨cs, df.rows.map (fun r => cs.map (fun c => rowCell df.cols r c))⟩
  else none

/-- `import_excel(file)` (src lines 290-310): with a `Text` column, the
rows are grouped with `df.groupby('Text')` — whose default `sort=True`
iterates the groups in *ascending key order*, not first-seen order — and
each group's three core columns become one passage's annotation table
(`KeyError` if one of them is missing).  Without a `Text` column, every
row becomes its own passage (with text `str(row.get('Text', '')) = ""`)
carrying a one-row table. -/
def import_excel (df : DF) :
    Except String (List String × List (PyKey × DF)) :=
  if df.cols.contains "Text" then
    match omapM (fun t => dfSelect (dfFilterText df t) coreColsS)
        (pySortAsc (dedupFS (textCol df))) with
    | some tabs => .ok (pySortAsc (dedupFS (textCol df)), indexDictFrom 0 tabs)
    | none => .error "KeyError: missing annotation columns"
  else
    .ok (df.rows.map (fun _ => ""),
      indexDictFrom 0 (df.rows.map (fun r =>
        (⟨coreColsS,
          [[rowCell df.cols r "Citation",
            rowCell df.cols r "Metadata",
            rowCell df.cols r "Annotation_Text"]]⟩ : DF))))

/-- C8 counterexample: a spreadsheet whose `Text` values appear in the
order `"b", "a"` imports with passages `["a", "b"]` — `groupby` sorts the
group keys — not in the first-seen order `["b", "a"]` the claim states. -/
theorem cex_import_excel_sorted_not_first_seen :
    import_excel
        ⟨["Text", "Citation", "Metadata", "Annotation_Text"],
         [["b", "c1", "m1", "a1"], ["a", "c2", "m2", "a2"]]⟩
      = .ok (["a", "b"],
          indexDictFrom 0
            [(⟨coreColsS, [["c2", "m2", "a2"]]⟩ : DF),
             (⟨coreColsS, [["c1", "m1", "a1"]]⟩ : DF)]) ∧
    (["a", "b"] : List String) ≠ ["b", "a"] := by
  constructor
  · rfl
  · decide

lemma charListLt_trans (a : List Char) :
    ∀ b c, charListLt a b = true → charListLt b c = true →
      charListLt a c = true := by
  induction a with
  | nil =>
    intro b c h1 h2
    cases b with
    | nil => exact absurd h1 (by simp [charListLt])
    | cons y ys =>
      cases c with
      | nil => exact absurd h2 (by simp [charListLt])
      | cons z zs => rfl
  | cons x xs ih =>
    intro b c h1 h2
    cases b with
    | nil => exact absurd h1 (by simp [charListLt])
    | cons y ys =>
      cases c with
      | nil => exact absurd h2 (by simp [charListLt])
      | cons z zs =>
        rw [charListLt] at h1 h2 ⊢
        by_cases hxy : x < y
        · by_cases hyz : y < z
          · rw [if_pos (lt_trans hxy hyz)]
          · rw [if_neg hyz] at h2
            by_cases hzy : z < y
            · rw [if_pos hzy] at h2
              exact absurd h2 (by simp)
            · have hyz' : y = z := le_antisymm (not_lt.1 hzy) (not_lt.1 hyz)
              rw [if_pos (hyz' ▸ hxy)]
        · rw [if_neg hxy] at h1
          by_cases hyx : y < x
          · rw [if_pos hyx] at h1
            exact absurd h1 (by simp)
          · rw [if_neg hyx] at h1
            have hxy' : x = y := le_antisymm (not_lt.1 hyx) (not_lt.1 hxy)
            subst hxy'
            by_cases hxz : x < z
            · rw [if_pos hxz]
            · rw [if_neg hxz] at h2 ⊢
              by_cases hzx : z < x
              · rw [if_pos hzx] at h2
                exact absurd h2 (by simp)
              · rw [if_neg hzx] at h2 ⊢
                exact ih ys zs h1 h2

lemma charListLt_of_ne (a : List Char) :
    ∀ b, a ≠ b → charListLt a b = true ∨ charListLt b a = true := by
  induction a with
  | nil =>
    intro b hb
    cases b with
    | nil => exact absurd rfl hb
    | cons y ys => exact Or.inl rfl
  | cons x xs ih =>
    intro b hb
    cases b with
    | nil => exact Or.inr rfl
    | cons y ys =>
      by_cases hxy : x < y
      · left
        rw [charListLt, if_pos hxy]
      · by_cases hyx : y < x
        · right
          rw [charListLt, if_pos hyx]
        · have hxy' : x = y := le_antisymm (not_lt.1 hyx) (not_lt.1 hxy)
          subst hxy'
          have hne : xs ≠ ys := fun h => hb (by rw [h])
          rcases ih ys hne with h | h
          · left
            rw [charListLt, if_neg hxy, if_neg hxy]
            exact h
          · right
            rw [charListLt, if_neg hxy, if_neg hxy]
            exact h

lemma strLt_trans (a b c : String) (h1 : strLt a b = true)
    (h2 : strLt b c = true) : strLt a c = true :=
  charListLt_trans a.toList b.toList c.toList h1 h2

lemma strLt_of_ne (a b : String) (h : a ≠ b) :
    strLt a b = true ∨ strLt b a = true :=
  charListLt_of_ne a.toList b.toList
    (fun he => h (by cases a; cases b; cases he; rfl))

lemma mem_insertAsc (x y : String) (l : List String) :
    y ∈ insertAsc x l ↔ y = x ∨ y ∈ l := by
  induction l with
  | nil => simp [insertAsc]
  | cons z zs ih =>
    rw [insertAsc]
    by_cases h : strLt x z
    · rw [if_pos h]
      simp [List.mem_cons]
      try tauto
    · rw [if_neg h]
      simp only [List.mem_cons, ih]
      tauto

lemma pairwise_insertAsc (x : String) (l : List String)
    (hl : List.Pairwise (fun a b => strLt a b = true) l) (hx : x ∉ l) :
    List.Pairwise (fun a b => strLt a b = true) (insertAsc x l) := by
  induction l with
  | nil => simp [insertAsc]
  | cons z zs ih =>
    rw [insertAsc]
    rcases List.pairwise_cons.1 hl with ⟨hz, hzs⟩
    by_cases h : strLt x z
    · rw [if_pos h]
      refine List.pairwise_cons.2 ⟨?_, hl⟩
      intro b hb
      rcases List.mem_cons.1 hb with rfl | hb'
      · exact h
      · exact strLt_trans x z b h (hz b hb')
    · rw [if_neg h]
      have hxz : x ≠ z := fun he => hx (he ▸ List.mem_cons_self z zs)
      have hzx : strLt z x = true := by
        rcases strLt_of_ne x z hxz with h' | h'
        · exact absurd h' h
        · exact h'
      refine List.pairwise_cons.2
        ⟨?_, ih hzs (fun hm => hx (List.mem_cons_of_mem z hm))⟩
      intro b hb
      rcases (mem_insertAsc x b zs).1 hb with rfl | hb'
      · exact hzx
      · exact hz b hb'

lemma mem_pySortAsc (l : List String) (y : String) :
    y ∈ pySortAsc l ↔ y ∈ l := by
  induction l with
  | nil => simp [pySortAsc]
  | cons x xs ih =>
    rw [pySortAsc, List.foldr_cons, mem_insertAsc]
    rw [pySortAsc] at ih
    simp [ih]

lemma pairwise_pySortAsc (l : List String) (hn : l.Nodup) :
    List.Pairwise (fun a b => strLt a b = true) (pySortAsc l) := by
  induction l with
  | nil => simp [pySortAsc]
  | cons x xs ih =>
    rw [pySortAsc, List.foldr_cons]
    rcases List.nodup_cons.1 hn with ⟨hx, hxs⟩
    refine pairwise_insertAsc x _ ?_ ?_
    · exact ih hxs
    · intro hmem
      exact hx ((mem_pySortAsc xs x).1 hmem)

lemma mem_dedupFSGo (l : List String) :
    ∀ acc y, y ∈ dedupFSGo l acc ↔ y ∈ acc ∨ y ∈ l := by
  induction l with
  | nil =>
    intro acc y
    simp [dedupFSGo]
  | cons x xs ih =>
    intro acc y
    rw [dedupFSGo]
    by_cases h : acc.contains x
    · rw [if_pos h, ih]
      have hx : x ∈ acc := by simpa using h
      simp only [List.mem_cons]
      constructor
      · tauto
      · rintro (h' | rfl | h') <;> tauto
    · rw [if_neg h, ih]
      simp only [List.mem_append, List.mem_singleton, List.mem_cons]
      tauto

lemma nodup_dedupFSGo (l : List String) :
    ∀ acc, acc.Nodup → (dedupFSGo l acc).Nodup := by
  induction l with
  | nil =>
    intro acc h
    exact h
  | cons x xs ih =>
    intro acc h
    rw [dedupFSGo]
    by_cases hc : acc.contains x
    · rw [if_pos hc]
      exact ih acc h
    · rw [if_neg hc]
      refine ih _ (List.nodup_append.2 ⟨h, List.nodup_singleton x, ?_⟩)
      intro a ha hb
      rw [List.mem_singleton] at hb
      subst hb
      exact hc (by simpa using ha)

lemma mem_dedupFS (l : List String) (y : String) :
    y ∈ dedupFS l ↔ y ∈ l := by
  rw [dedupFS, mem_dedupFSGo]
  simp

lemma nodup_dedupFS (l : List String) : (dedupFS l).Nodup :=
  nodup_dedupFSGo l [] List.nodup_nil

lemma omapM_some {a b : Type} (f : a → Option b) (g : a → b) (l : List a)
    (h : ∀ x ∈ l, f x = some (g x)) : omapM f l = some (l.map g) := by
  induction l with
  | nil => rfl
  | cons x xs ih =>
    rw [omapM, h x (List.mem_cons_self x xs),
      ih (fun y hy => h y (List.mem_cons_of_mem x hy))]
    rfl

/-- C8 (amended): for a spreadsheet with a `Text` column and the three
annotation columns, `import_excel` builds one passage per distinct `Text`
value — but in *ascending sorted key order* (pandas `groupby` default
`sort=True`), not first-seen order — and each passage's annotation table
consists of its group's rows' three core cells in original row order.
The passage list is strictly ascending and has exactly the distinct
`Text` values as members. -/
theorem import_excel_grouping (df : DF)
    (hT : df.cols.contains "Text" = true)
    (hc : coreColsS.all df.cols.contains = true) :
    import_excel df
        = .ok (pySortAsc (dedupFS (textCol df)),
            indexDictFrom 0 ((pySortAsc (dedupFS (textCol df))).map
              (fun t => ⟨coreColsS,
                (df.rows.filter (fun r => rowCell df.cols r "Text" == t)).map
                  (fun r => coreColsS.map (fun c => rowCell df.cols r c))⟩))) ∧
    List.Pairwise (fun a b => strLt a b = true)
      (pySortAsc (dedupFS (textCol df))) ∧
    (∀ t, t ∈ pySortAsc (dedupFS (textCol df)) ↔ t ∈ textCol df) := by
  refine ⟨?_, pairwise_pySortAsc _ (nodup_dedupFS _), fun t => by
    rw [mem_pySortAsc, mem_dedupFS]⟩
  rw [import_excel, if_pos hT]
  rw [omapM_some (fun t => dfSelect (dfFilterText df t) coreColsS)
      (fun t => (⟨coreColsS,
        (df.rows.filter (fun r => rowCell df.cols r "Text" == t)).map
          (fun r => coreColsS.map (fun c => rowCell df.cols r c))⟩ : DF))
      (pySortAsc (dedupFS (textCol df)))
      (fun t ht => by
        simp only [dfFilterText, dfSelect]
        rw [if_pos hc])]

/-- C8 witness: the amended theorem at a concrete spreadsheet with two
distinct `Text` values arriving in the order `"b", "a"`. -/
theorem import_excel_grouping_wit :
    ((⟨["Text", "Citation", "Metadata", "Annotation_Text"],
        [["b", "c1", "m1", "a1"], ["a", "c2", "m2", "a2"]]⟩ : DF).cols.contains
          "Text" = true ∧
      coreColsS.all
        (⟨["Text", "Citation", "Metadata", "Annotation_Text"],
          [["b", "c1", "m1", "a1"], ["a", "c2", "m2", "a2"]]⟩ : DF).cols.contains
        = true) ∧
    List.Pairwise (fun a b => strLt a b = true)
      (pySortAsc (dedupFS (textCol
        (⟨["Text", "Citation", "Metadata", "Annotation_Text"],
          [["b", "c1", "m1", "a1"], ["a", "c2", "m2", "a2"]]⟩ : DF)))) :=
  ⟨⟨by decide, by decide⟩,
   (import_excel_grouping
      (⟨["Text", "Citation", "Metadata", "Annotation_Text"],
        [["b", "c1", "m1", "a1"], ["a", "c2", "m2", "a2"]]⟩ : DF)
      (by decide) (by decide)).2.1⟩

/-! ## Document adapter (`import_word`) -/

/-- Python `s.strip()`: leading and trailing whitespace removed. -/
def pyStrip (s : String) : String :=
  String.mk (((s.toList.dropWhile Char.isWhitespace).reverse.dropWhile
    Char.isWhitespace).reverse)

/-- Python `s.startswith(p)`. -/
def pyStartswith (s p : String) : Bool :=
  p.toList.isPrefixOf s.toList

/-- A paragraph of a docx document: its text and its style name. -/
structure Para where
  text : String
  style : String
deriving DecidableEq, Repr

/-- Fueled scanner for `re.findall(r'\[(\d+)\]', s)`: the digit groups of
all non-overlapping `[digits]` matches, left to right (`fuel ≥ length`
suffices; an unmatched `[` resumes scanning right after it, exactly as
the regex engine does). -/
def findBracketNumsGo : Nat → List Char → List String
  | 0, _ => []
  | fuel + 1, cs =>
    match cs with
    | [] => []
    | c :: rest =>
      if c = '[' then
        match rest.dropWhile Char.isDigit with
        | ']' :: tail =>
          if (rest.takeWhile Char.isDigit).isEmpty then
            findBracketNumsGo fuel rest
          else String.mk (rest.takeWhile Char.isDigit)
            :: findBracketNumsGo fuel tail
        | _ => findBracketNumsGo fuel rest
      else findBracketNumsGo fuel rest

/-- `re.findall(r'\[(\d+)\]', s)`. -/
def findBracketNums (s : String) : List String :=
  findBracketNumsGo s.toList.length s.toList

/-- The loop state of `import_word`: passages and annotations collected so
far, the passage being read, and its bullet annotations (rows of
`[Citation, Metadata, Annotation_Text]` cells). -/
structure WordAcc where
  passages : List String
  annotations : List (PyKey × DF)
  current_passage : Option String
  current_annots : List (List String)
deriving DecidableEq, Repr

/-- `current_annots[-1][field] = value`. -/
def setLastField (rows : List (List String)) (idx : Nat) (v : String) :
    List (List String) :=
  match rows.reverse with
  | [] => []
  | last :: revRest => ((last.set idx v) :: revRest).reverse

/-- Commit the collected annotations of the passage just finished:
`annotations[len(passages)-1] = pd.DataFrame(current_annots)` if any were
collected, else the one-empty-row default frame; nothing happens when no
passage has been started. -/
def flushAnnots (acc : WordAcc) : WordAcc :=
  match acc.current_passage with
  | none => acc
  | some _ =>
    { acc with
      annotations := dictInsert acc.annotations
        (PyKey.kInt (Int.ofNat (acc.passages.length - 1)))
        (if acc.current_annots.isEmpty then defaultTable
         else ⟨coreColsS, acc.current_annots⟩),
      current_annots := [] }

/-- One paragraph of the `import_word` recognition loop (src lines
227-258): empty paragraphs are skipped; a non-`List`-styled paragraph
flushes the previous passage's annotations and starts a new passage; a
bulleted paragraph starting with `Citation:` opens a new annotation
record, and `Metadata:` / `Annotation:` fill the last record's fields
(silently ignored when no record is open). -/
def importWordStep (acc : WordAcc) (para : Para) : WordAcc :=
  let text := pyStrip para.text
  if text = "" then acc
  else if !(pyStartswith para.style "List") then
    let acc1 := flushAnnots acc
    { acc1 with
      passages := acc1.passages ++ [text],
      current_passage := some text }
  else if pyStartswith text "Citation:" then
    { acc with current_annots := acc.current_annots
        ++ [[pyStrip (String.mk (text.toList.drop 9)), "", ""]] }
  else if pyStartswith text "Metadata:" then
    if acc.current_annots.isEmpty then acc
    else
      let rows1 :=
        setLastField acc.current_annots 1 (pyStrip (String.mk (text.toList.drop 9)))
      { acc with current_annots := rows1 }
  else if pyStartswith text "Annotation:" then
    if acc.current_annots.isEmpty then acc
    else
      let rows1 :=
        setLastField acc.current_annots 2 (pyStrip (String.mk (text.toList.drop 11)))
      { acc with current_annots := rows1 }
  else acc

/-- `import_word(file)` (src lines 219-288): run the recognition loop,
flush the last passage, and — only when the annotations dict is empty —
apply the footnote fallback: collect, for every `[n]` marker in any
non-empty paragraph, the stripped text of every paragraph starting with
`"n "`, and give passage `i` the `i`-th collected metadata value as its
sole metadata.  Note that the final flush makes the dict non-empty
whenever at least one passage paragraph exists, so the fallback can only
run on documents with no passages at all — and then its final loop over
`passages` assigns nothing. -/
def import_word (doc : List Para) : List String × List (PyKey × DF) :=
  let acc := flushAnnots (doc.foldl importWordStep ⟨[], [], none, []⟩)
  if acc.annotations.isEmpty then
    let metadata0 := doc.foldl (fun m para =>
      if pyStrip para.text ≠ "" then
        m ++ (findBracketNums para.text).flatMap (fun note =>
          (doc.filter (fun p =>
            pyStartswith (pyStrip p.text) (note ++ " "))).map
            (fun p => pyStrip p.text))
      else m) []
    let metadata :=
      if metadata0.isEmpty then acc.passages.map (fun _ => "") else metadata0
    (acc.passages,
      (List.range acc.passages.length).foldl (fun d i =>
        dictInsert d (PyKey.kInt (Int.ofNat i))
          ⟨coreColsS, [["", metadata.getD i "", ""]]⟩) [])
  else (acc.passages, acc.annotations)

/-- C9: the code contradicts its own fallback comment.  A document with a
passage paragraph containing the marker `[1]` and a paragraph starting
with `"1 "` — exactly the footnote situation the claim describes — does
*not* get `"1 Footnote text"` stored as metadata: the final flush always
populates the annotations dict once any passage exists, so
`if not annotations` is false and the fallback never runs; both
paragraphs become passages with empty default annotation rows. -/
theorem import_word_fallback_unreachable :
    import_word [⟨"Hello [1]", "Normal"⟩, ⟨"1 Footnote text", "Normal"⟩]
      = (["Hello [1]", "1 Footnote text"],
         [(PyKey.kInt 0, defaultTable), (PyKey.kInt 1, defaultTable)]) := by
  rfl
